import Mathlib

/- Shallow embedding of the Krishna Knowledge app:
   the quiz response parsing logic and quiz session state machine from
   src/custom_pages/quiz.py, and the chatbot answer post-processing from
   src/custom_pages/chatbot.py.  Python strings are modelled as Lean
   Strings (structures over List Char); Python dicts keyed by option
   letters are modelled as insertion-ordered association lists. -/

/-- Python str.isspace characters stripped by str.strip() (ASCII range). -/
def isPySpace (c : Char) : Bool :=
  c == ' ' || c == '\t' || c == '\n' || c == '\r' || c == '\x0b' || c == '\x0c'

/-- Python str.strip() on a character list: drop whitespace at both ends. -/
def pyStripL (l : List Char) : List Char :=
  ((l.dropWhile isPySpace).reverse.dropWhile isPySpace).reverse

/-- Python str.strip(). -/
def pyStrip (s : String) : String := ⟨pyStripL s.data⟩

/-- Python str.upper() (ASCII; the markers involved are ASCII). -/
def pyUpper (s : String) : String := ⟨s.data.map Char.toUpper⟩

/-- Python str.split(sep='\n') on a character list. -/
def splitNL : List Char → List (List Char)
  | [] => [[]]
  | c :: rest =>
    if c = '\n' then [] :: splitNL rest
    else
      match splitNL rest with
      | [] => [[c]]
      | h :: t => (c :: h) :: t

/-- quiz.py line 87: strip each line of the response and keep the
non-blank ones. -/
def pyLines (response : String) : List String :=
  ((splitNL response.data).map (fun l => pyStrip ⟨l⟩)).filter (fun s => !(s == ""))

/-- Python substring containment (the "in" operator on str). -/
def isSubstrL (needle : List Char) : List Char → Bool
  | [] => needle.isEmpty
  | c :: rest => needle.isPrefixOf (c :: rest) || isSubstrL needle rest

/-- Python "needle in s". -/
def hasSub (needle s : String) : Bool := isSubstrL needle.data s.data

/-- Python line.split(":", 1)[1]: everything after the first colon. -/
def afterColon (s : String) : String :=
  ⟨(s.data.dropWhile (fun c => !(c == ':'))).drop 1⟩

/-- quiz.py line 118: line.startswith(("A)", "B)", "C)", "D)")), returning
the matched letter. -/
def optKey (s : String) : Option Char :=
  match s.data with
  | c1 :: c2 :: _ =>
    if (c1 == 'A' || c1 == 'B' || c1 == 'C' || c1 == 'D') && c2 == ')' then
      some c1
    else none
  | _ => none

/-- quiz.py lines 120-123: option text is everything after the two-char
prefix, stripped, with one stray leading ")" removed. -/
def optValue (line : String) : String :=
  let v0 := if line.data.length > 2 then pyStrip ⟨line.data.drop 2⟩ else ""
  match v0.data with
  | c :: rest => if c = ')' then pyStrip ⟨rest⟩ else v0
  | [] => v0

/-- quiz.py lines 130-133: first character in A-D found in the stripped,
uppercased remainder after the colon. -/
def findABCD (l : List Char) : Option Char :=
  l.find? (fun c => c == 'A' || c == 'B' || c == 'C' || c == 'D')

/-- quiz.py lines 128-133 combined: the correct letter extracted from a
CORRECT: line. -/
def correctLetter (line : String) : Option Char :=
  findABCD (pyUpper (pyStrip (afterColon line))).data

/-- quiz.py line 145: the markers that stop explanation continuation. -/
def stopMarkers : List String := ["QUESTION:", "CORRECT:", "A)", "B)", "C)", "D)"]

/-- quiz.py line 145: a line at which explanation absorption stops. -/
def stopLine (s : String) : Bool :=
  stopMarkers.any (fun m => hasSub m (pyUpper s))

/-- quiz.py lines 137-139: initial explanation text from an EXPLANATION:
line; kept unchanged when the remainder after the colon strips to empty. -/
def explInit (line old : String) : String :=
  let ep := pyStrip (afterColon line)
  if ep = "" then old else ep

/-- quiz.py lines 141-148: the inner while loop absorbing continuation
lines into the explanation until a marker line; returns the new
explanation and the index of the first unabsorbed line.  Fuel-based so
the kernel can evaluate it; the caller passes enough fuel. -/
def absorbExpl (lines : List String) : Nat → Nat → String → String × Nat
  | 0, j, e => (e, j)
  | fuel + 1, j, e =>
    match lines.get? j with
    | none => (e, j)
    | some raw =>
      let nl := pyStrip raw
      if stopLine nl then (e, j)
      else absorbExpl lines fuel (j + 1) (e ++ " " ++ nl)

/-- The parser's accumulated fields (quiz.py lines 88-91). -/
structure PState where
  question : String
  options : List (Char × String)
  correct : String
  explanation : String
deriving DecidableEq

/-- Initial parser state. -/
def initPState : PState := ⟨"", [], "", ""⟩

/-- Python dict assignment options[key] = value: overwrite in place,
otherwise append preserving insertion order. -/
def dinsert (k : Char) (v : String) : List (Char × String) → List (Char × String)
  | [] => [(k, v)]
  | (k0, v0) :: rest => if k0 = k then (k, v) :: rest else (k0, v0) :: dinsert k v rest

/-- Python dict lookup options.get(key). -/
def dictGet (k : Char) : List (Char × String) → Option String
  | [] => none
  | (k0, v0) :: rest => if k0 = k then some v0 else dictGet k rest

/-- quiz.py lines 101-151: one iteration of the main while loop, given
the raw line at index i.  Returns the updated fields together with the
next value of the loop index (the bottom-of-loop i += 1 included; the
EXPLANATION branch jumps past all absorbed lines). -/
def scanStep (lines : List String) (i : Nat) (st : PState) (raw : String) :
    PState × Nat :=
  let line := pyStrip raw
  let lu := pyUpper line
  if hasSub "QUESTION:" lu then
    if line.data.contains ':' then
      if pyStrip (afterColon line) = "" then
        match lines.get? (i + 1) with
        | some nxt => ({ st with question := pyStrip nxt }, i + 2)
        | none => (st, i + 2)
      else ({ st with question := pyStrip (afterColon line) }, i + 1)
    else (st, i + 1)
  else
    match optKey line with
    | some k =>
      ({ st with options := dinsert k.toUpper (optValue line) st.options }, i + 1)
    | none =>
      if hasSub "CORRECT:" lu then
        match correctLetter line with
        | some c => ({ st with correct := ⟨[c]⟩ }, i + 1)
        | none => (st, i + 1)
      else if hasSub "EXPLANATION:" lu then
        let r := absorbExpl lines lines.length (i + 1) (explInit line st.explanation)
        ({ st with explanation := r.1 }, r.2)
      else (st, i + 1)

/-- quiz.py lines 99-151: the main while loop over the stripped non-blank
lines.  One unit of fuel per iteration; the scan index strictly increases
every iteration, so fuel = lines.length always suffices. -/
def scan (lines : List String) : Nat → Nat → PState → PState
  | 0, _, st => st
  | fuel + 1, i, st =>
    match lines.get? i with
    | none => st
    | some raw => scan lines fuel (scanStep lines i st raw).2 (scanStep lines i st raw).1

/-- A structured quiz question (quiz.py lines 170-175). -/
structure QuizQuestion where
  question : String
  options : List (Char × String)
  correct : String
  explanation : String
deriving DecidableEq

/-- The parser state after the scan loop, before validation. -/
def parseState (response : String) : PState :=
  scan (pyLines response) (pyLines response).length 0 initPState

/-- quiz.py lines 84-181: parse_quiz_question.  Returns none (Python None,
the ParseFailure) when validation fails, otherwise the structured record. -/
def parse_quiz_question (response : String) : Option QuizQuestion :=
  let st := parseState response
  if st.question = "" then none
  else if st.options.length < 4 then none
  else if !((["A", "B", "C", "D"] : List String).contains st.correct) then none
  else some ⟨st.question, st.options, st.correct, st.explanation⟩

/-- The quiz session state (quiz.py lines 192-202). -/
structure QuizState where
  questions : List QuizQuestion
  current_question_index : Nat
  total_questions_selected : Nat
  score : Nat
  answered : Bool
  selected_answer : Option String
  quiz_started : Bool
  quiz_completed : Bool
deriving DecidableEq

/-- quiz.py lines 329-338: the submit-answer handler.  The enclosing UI
code guarantees the current index is in range; out of range the Python
code would not reach this handler, modelled as a no-op. -/
def submitAnswer (st : QuizState) (selected_letter : String) : QuizState :=
  match st.questions.get? st.current_question_index with
  | none => st
  | some q =>
    { st with
      selected_answer := some selected_letter,
      answered := true,
      score := if selected_letter = q.correct then st.score + 1 else st.score }

/-- quiz.py lines 382-384: completion percentage, denominated by the
originally requested count. -/
def completedPercentage (st : QuizState) : ℚ :=
  ((st.score : ℚ) / (st.total_questions_selected : ℚ)) * 100

/-- quiz.py line 276 and 283: accept a parsed question only if it is
truthy with truthy question text and a truthy options dict. -/
def acceptQuiz : Option QuizQuestion → Option QuizQuestion
  | none => none
  | some qq => if qq.question ≠ "" ∧ qq.options ≠ [] then some qq else none

/-- quiz.py lines 270-284: the serial generation loop.  The generator is
an external black box modelled as a stream of responses indexed by call
count; each slot takes one call, plus one retry call on failure; a slot
that fails twice is dropped. -/
def genLoop (gen : Nat → String) : Nat → Nat → List QuizQuestion
  | 0, _ => []
  | n + 1, calls =>
    match acceptQuiz (parse_quiz_question (gen calls)) with
    | some q => q :: genLoop gen n (calls + 1)
    | none =>
      match acceptQuiz (parse_quiz_question (gen (calls + 1))) with
      | some q => q :: genLoop gen n (calls + 2)
      | none => genLoop gen n (calls + 2)

/-- quiz.py lines 256-296: the Start Quiz transition.  Resets state with
quiz_started = true, generates the questions, stores them if any were
produced, otherwise clears quiz_started (abort back to Setup). -/
def startQuiz (gen : Nat → String) (num : Nat) : QuizState :=
  let base : QuizState :=
    { questions := [], current_question_index := 0,
      total_questions_selected := num, score := 0, answered := false,
      selected_answer := none, quiz_started := true, quiz_completed := false }
  let qs := genLoop gen num 0
  if qs.isEmpty then { base with quiz_started := false }
  else { base with questions := qs }

/-- Python str.startswith. -/
def pyStartswith (pre s : String) : Bool := pre.data.isPrefixOf s.data

/-- chatbot.py lines 229-230: replace output still containing tool-call
markup with the fixed apologetic fallback. -/
def cleanupOutput (ai_response : String) : String :=
  if hasSub "retrieve" ai_response && ai_response.data.contains '\x7b' then
    "Hare Krishna! I apologize, but I'm having trouble processing your question. Please try asking in a different way."
  else ai_response

/-- chatbot.py lines 233-234: prepend the fixed salutation when the output
does not already start with it. -/
def ensureSalutation (ai_response : String) : String :=
  if pyStartswith "Hare Krishna" ai_response then ai_response
  else "Hare Krishna! " ++ ai_response

/-- A canonical well-formed generator response, used as a concrete input
in witnesses. -/
def goodResp : String :=
  "QUESTION: Who?\nA) Alpha\nB) Beta\nC) Gamma\nD) Delta\nCORRECT: A\nEXPLANATION: Because."

/-- The structured question goodResp parses to. -/
def goodQ : QuizQuestion :=
  ⟨"Who?", [('A', "Alpha"), ('B', "Beta"), ('C', "Gamma"), ('D', "Delta")], "A", "Because."⟩

/-- A generator whose first call yields garbage and whose later calls
yield a well-formed response: exercises the retry path. -/
def genRetry : Nat → String := fun n => if n = 0 then "nonsense" else goodResp

/-- A generator that always yields garbage: exercises the abort path. -/
def genBad : Nat → String := fun _ => "nonsense"

/-- A concrete parsed question for building session states. -/
def dummyQ : QuizQuestion :=
  ⟨"q", [('A', "a"), ('B', "b"), ('C', "c"), ('D', "d")], "A", "e"⟩

/-- Completed session: 5 requested, 3 generated, all 3 answered correctly. -/
def exC4State : QuizState :=
  { questions := [dummyQ, dummyQ, dummyQ], current_question_index := 2,
    total_questions_selected := 5, score := 3, answered := true,
    selected_answer := some "A", quiz_started := true, quiz_completed := true }

/-- In-progress session at an unanswered question whose correct answer
is A. -/
def exC6State : QuizState :=
  { questions := [dummyQ], current_question_index := 0,
    total_questions_selected := 1, score := 0, answered := false,
    selected_answer := none, quiz_started := true, quiz_completed := false }

/-- The validation-relevant invariant maintained by the scan loop:
option keys are distinct and drawn from A-D, and the correct field is
empty or one of A-D. -/
def StInv (st : PState) : Prop :=
  (st.options.map Prod.fst).Nodup ∧
  (∀ kv ∈ st.options, kv.1 ∈ (['A', 'B', 'C', 'D'] : List Char)) ∧
  (st.correct = "" ∨ st.correct ∈ (["A", "B", "C", "D"] : List String))

/-- A field text fit for a one-line template slot: non-empty, no
surrounding whitespace, no embedded newline. -/
def cleanStr (s : String) : Bool :=
  !s.data.isEmpty &&
  s.data.all (fun c => !(c == '\n')) &&
  !isPySpace (s.data.headD 'x') &&
  !isPySpace (s.data.getLastD 'x')

/-- A well-formed option entry: key is one of A-D, text is clean, does
not begin with a stray ")", and does not contain the QUESTION: marker
(which would hijack the line into the question branch). -/
def cleanOpt (kv : Char × String) : Bool :=
  (kv.1 == 'A' || kv.1 == 'B' || kv.1 == 'C' || kv.1 == 'D') &&
  cleanStr kv.2 &&
  !(kv.2.data.headD 'x' == ')') &&
  !hasSub "QUESTION:" (pyUpper kv.2)

/-- The option line "K) text" of the five-field template. -/
def mkOptLine (kv : Char × String) : String := ⟨kv.1 :: ')' :: ' ' :: kv.2.data⟩

/-- The lines of a five-field template. -/
def templateLines (q : String) (opts : List (Char × String)) (corr : Char)
    (e : String) (conts : List String) : List String :=
  ("QUESTION: " ++ q) :: opts.map mkOptLine ++
    ("CORRECT: " ++ ⟨[corr]⟩) :: ("EXPLANATION: " ++ e) :: conts

/-- Join lines with single newlines. -/
def joinNL : List String → String
  | [] => ""
  | [l] => l
  | l :: l2 :: ls => l ++ "\n" ++ joinNL (l2 :: ls)

/-- A five-field template text: QUESTION line, option lines, CORRECT
line, EXPLANATION line, then continuation lines. -/
def mkTemplate (q : String) (opts : List (Char × String)) (corr : Char)
    (e : String) (conts : List String) : String :=
  joinNL (templateLines q opts corr e conts)

/-- The explanation the parser builds: initial text then each
continuation line appended after a single space. -/
def explJoin (e : String) (conts : List String) : String :=
  conts.foldl (fun a l => a ++ " " ++ l) e

/-- Repeated Python dict assignment over a list of entries. -/
def dinsertAll (base : List (Char × String)) (opts : List (Char × String)) :
    List (Char × String) :=
  opts.foldl (fun acc kv => dinsert kv.1 kv.2 acc) base

/-- Two texts whose lines after the EXPLANATION line are reordered: in the
first the continuation line precedes the CORRECT marker and is absorbed;
in the second it follows the marker and is ignored. -/
def exOrder1 : String :=
  "QUESTION: Q?\nA) o1\nB) o2\nC) o3\nD) o4\nEXPLANATION: base\nextra\nCORRECT: A"

/-- Line-permutation of exOrder1 (last three lines rotated). -/
def exOrder2 : String :=
  "QUESTION: Q?\nA) o1\nB) o2\nC) o3\nD) o4\nEXPLANATION: base\nCORRECT: A\nextra"

lemma isPrefixOf_append_left (l t : List Char) : l.isPrefixOf (l ++ t) = true := by
  induction l with
  | nil => simp [List.isPrefixOf]
  | cons a l ih => simp [List.isPrefixOf, ih]

lemma string_data_append (a b : String) : (a ++ b).data = a.data ++ b.data := rfl

lemma salutation_of_prepend (s : String) :
    pyStartswith "Hare Krishna" ("Hare Krishna! " ++ s) = true := by
  have h : ("Hare Krishna! " ++ s).data =
      "Hare Krishna".data ++ (['!', ' '] ++ s.data) := by
    rw [string_data_append]
    simp
  rw [pyStartswith, h]
  exact isPrefixOf_append_left _ _

/-- C9: the Answer Composer's salutation step prepends the fixed
salutation exactly once to any output lacking it, leaves outputs that
already start with it unchanged, and is idempotent (applying it to its
own output never duplicates the prefix). -/
theorem salutation_idempotent (s : String) :
    (pyStartswith "Hare Krishna" s = false →
      ensureSalutation s = "Hare Krishna! " ++ s) ∧
    (pyStartswith "Hare Krishna" s = true → ensureSalutation s = s) ∧
    ensureSalutation (ensureSalutation s) = ensureSalutation s := by
  refine ⟨?_, ?_, ?_⟩
  · intro h
    simp [ensureSalutation, h]
  · intro h
    simp [ensureSalutation, h]
  · by_cases h : pyStartswith "Hare Krishna" s = true
    · simp [ensureSalutation, h]
    · simp only [Bool.not_eq_true] at h
      simp [ensureSalutation, h, salutation_of_prepend]

/-- C9 witness: on a concrete output lacking the salutation the prefix is
prepended once and a second application changes nothing. -/
theorem salutation_idempotent_witness :
    ensureSalutation "hello" = "Hare Krishna! " ++ "hello" ∧
    ensureSalutation (ensureSalutation "hello") = ensureSalutation "hello" := by
  have h := salutation_idempotent "hello"
  exact ⟨h.1 (by decide), h.2.2⟩

/-- C4: the Completed-phase percentage equals 100 * score /
total_requested, denominated by the originally requested count; with 5
requested, 3 generated and score 3 the percentage is 60, not 100. -/
theorem completed_percentage_spec :
    (∀ st : QuizState, (st.total_questions_selected : ℚ) ≠ 0 →
      completedPercentage st =
        100 * (st.score : ℚ) / (st.total_questions_selected : ℚ)) ∧
    exC4State.questions.length = 3 ∧ exC4State.score = 3 ∧
    exC4State.total_questions_selected = 5 ∧
    completedPercentage exC4State = 60 ∧ completedPercentage exC4State ≠ 100 := by
  refine ⟨?_, by decide, by decide, by decide, ?_, ?_⟩
  · intro st _
    rw [completedPercentage, div_mul_eq_mul_div, mul_comm]
  · norm_num [completedPercentage, exC4State]
  · norm_num [completedPercentage, exC4State]

/-- C4 witness: the general percentage formula applied to the concrete
5-requested / 3-generated / score-3 session. -/
theorem completed_percentage_spec_witness :
    completedPercentage exC4State = 100 * (3 : ℚ) / 5 := by
  have h := completed_percentage_spec.1 exC4State (by norm_num [exC4State])
  simpa [exC4State] using h

/-- C6: submit records the selected answer, marks the question answered,
and increments the score iff the selection equals the current question's
correct letter. -/
theorem submit_answer_spec (st : QuizState) (sel : String) (q : QuizQuestion)
    (hq : st.questions.get? st.current_question_index = some q)
    (_hun : st.answered = false) :
    (submitAnswer st sel).selected_answer = some sel ∧
    (submitAnswer st sel).answered = true ∧
    (submitAnswer st sel).score =
      (if sel = q.correct then st.score + 1 else st.score) ∧
    (sel ≠ q.correct → (submitAnswer st sel).score = st.score) ∧
    (sel = q.correct → (submitAnswer st sel).score = st.score + 1) := by
  rw [submitAnswer, hq]
  refine ⟨rfl, rfl, rfl, ?_, ?_⟩
  · intro h
    simp [h]
  · intro h
    simp [h]

/-- C6 witness: submitting B when the correct answer is A leaves the
score unchanged while setting answered and the selected answer. -/
theorem submit_answer_spec_witness :
    (submitAnswer exC6State "B").selected_answer = some "B" ∧
    (submitAnswer exC6State "B").answered = true ∧
    (submitAnswer exC6State "B").score = 0 := by
  have h := submit_answer_spec exC6State "B" dummyQ (by decide) (by decide)
  refine ⟨h.1, h.2.1, ?_⟩
  have h2 := h.2.2.2.1 (by decide)
  simpa [exC6State] using h2

lemma genLoop_length_le (gen : Nat → String) : ∀ n c, (genLoop gen n c).length ≤ n := by
  intro n
  induction n with
  | zero => intro c; simp [genLoop]
  | succ n ih =>
    intro c
    rw [genLoop]
    cases h1 : acceptQuiz (parse_quiz_question (gen c)) with
    | some q => simpa using ih (c + 1)
    | none =>
      cases h2 : acceptQuiz (parse_quiz_question (gen (c + 1))) with
      | some q => simpa using ih (c + 2)
      | none => exact le_trans (ih (c + 2)) (Nat.le_succ n)

/-- C5: the Setup-to-InProgress transition generates questions serially,
retries a failed slot exactly once, drops a twice-failed slot (so the
final list can be shorter than requested), and aborts back to Setup
(quiz_started reset) when no question at all was produced. -/
theorem quiz_generation_retry (gen : Nat → String) (n c : Nat) :
    (genLoop gen n c).length ≤ n ∧
    (∀ q, acceptQuiz (parse_quiz_question (gen c)) = some q →
      genLoop gen (n + 1) c = q :: genLoop gen n (c + 1)) ∧
    (∀ q, acceptQuiz (parse_quiz_question (gen c)) = none →
      acceptQuiz (parse_quiz_question (gen (c + 1))) = some q →
      genLoop gen (n + 1) c = q :: genLoop gen n (c + 2)) ∧
    (acceptQuiz (parse_quiz_question (gen c)) = none →
      acceptQuiz (parse_quiz_question (gen (c + 1))) = none →
      genLoop gen (n + 1) c = genLoop gen n (c + 2)) ∧
    (genLoop gen n 0 = [] →
      (startQuiz gen n).quiz_started = false ∧ (startQuiz gen n).questions = []) ∧
    (genLoop gen n 0 ≠ [] →
      (startQuiz gen n).quiz_started = true ∧
      (startQuiz gen n).questions = genLoop gen n 0) := by
  refine ⟨genLoop_length_le gen n c, ?_, ?_, ?_, ?_, ?_⟩
  · intro q h1
    rw [genLoop, h1]
  · intro q h1 h2
    rw [genLoop, h1, h2]
  · intro h1 h2
    rw [genLoop, h1, h2]
  · intro h
    simp [startQuiz, h]
  · intro h
    simp [startQuiz, h]

/-- C5 witness: a slot whose first generation fails is retried once and
succeeds; a generator that always fails yields an empty list and the
transition aborts with quiz_started reset. -/
theorem quiz_generation_retry_witness :
    genLoop genRetry 1 0 = [goodQ] ∧
    (startQuiz genBad 1).quiz_started = false ∧
    (genLoop genBad 2 0).length ≤ 2 := by
  refine ⟨?_, ?_, (quiz_generation_retry genBad 2 0).1⟩
  · have h := (quiz_generation_retry genRetry 0 0).2.2.1 goodQ (by decide) (by decide)
    simpa using h
  · exact ((quiz_generation_retry genBad 1 0).2.2.2.2.1 (by decide)).1

lemma mem_dinsert (k : Char) (v : String) :
    ∀ (l : List (Char × String)) (kv : Char × String),
      kv ∈ dinsert k v l → kv = (k, v) ∨ kv ∈ l := by
  intro l
  induction l with
  | nil => intro kv h; simpa [dinsert] using h
  | cons hd tl ih =>
    obtain ⟨k0, v0⟩ := hd
    intro kv h
    by_cases hk : k0 = k
    · rw [dinsert, if_pos hk] at h
      rcases List.mem_cons.1 h with h | h
      · exact Or.inl h
      · exact Or.inr (List.mem_cons_of_mem _ h)
    · rw [dinsert, if_neg hk] at h
      rcases List.mem_cons.1 h with h | h
      · exact Or.inr (h ▸ List.mem_cons_self _ _)
      · rcases ih kv h with h1 | h1
        · exact Or.inl h1
        · exact Or.inr (List.mem_cons_of_mem _ h1)

lemma map_fst_dinsert_mem (k : Char) (v : String) :
    ∀ (l : List (Char × String)) (x : Char),
      x ∈ (dinsert k v l).map Prod.fst ↔ x = k ∨ x ∈ l.map Prod.fst := by
  intro l
  induction l with
  | nil => intro x; simp [dinsert]
  | cons hd tl ih =>
    obtain ⟨k0, v0⟩ := hd
    intro x
    by_cases hk : k0 = k
    · rw [dinsert, if_pos hk]
      subst hk
      simp only [List.map_cons, List.mem_cons]
      tauto
    · rw [dinsert, if_neg hk]
      simp only [List.map_cons, List.mem_cons, ih]
      tauto

lemma nodup_dinsert (k : Char) (v : String) :
    ∀ (l : List (Char × String)), (l.map Prod.fst).Nodup →
      ((dinsert k v l).map Prod.fst).Nodup := by
  intro l
  induction l with
  | nil => intro _; simp [dinsert]
  | cons hd tl ih =>
    obtain ⟨k0, v0⟩ := hd
    intro h
    simp only [List.map_cons, List.nodup_cons] at h
    by_cases hk : k0 = k
    · rw [dinsert, if_pos hk]
      simp only [List.map_cons, List.nodup_cons]
      exact ⟨hk ▸ h.1, h.2⟩
    · rw [dinsert, if_neg hk]
      simp only [List.map_cons, List.nodup_cons]
      refine ⟨?_, ih h.2⟩
      rw [map_fst_dinsert_mem]
      rintro (h1 | h1)
      · exact hk h1
      · exact h.1 h1

lemma optKey_mem (s : String) (k : Char) (h : optKey s = some k) :
    k ∈ (['A', 'B', 'C', 'D'] : List Char) := by
  unfold optKey at h
  rcases hd : s.data with _ | ⟨c1, _ | ⟨c2, rest⟩⟩ <;> rw [hd] at h
  · simp at h
  · simp at h
  · simp only [Option.ite_none_right_eq_some, Option.some.injEq] at h
    obtain ⟨hc, rfl⟩ := h
    simp only [Bool.and_eq_true, Bool.or_eq_true, beq_iff_eq] at hc
    rcases hc.1 with ((h1 | h1) | h1) | h1 <;> simp [h1]

lemma findABCD_mem (l : List Char) (c : Char) (h : findABCD l = some c) :
    c ∈ (['A', 'B', 'C', 'D'] : List Char) := by
  have hp := List.find?_some h
  simp only [Bool.or_eq_true, beq_iff_eq] at hp
  rcases hp with ((h1 | h1) | h1) | h1 <;> simp [h1]

lemma StInv_option (st : PState) (k : Char) (v : String)
    (hk : k ∈ (['A', 'B', 'C', 'D'] : List Char)) (h : StInv st) :
    StInv { st with options := dinsert k v st.options } := by
  refine ⟨nodup_dinsert k v st.options h.1, ?_, h.2.2⟩
  intro kv hkv
  rcases mem_dinsert k v st.options kv hkv with h1 | h1
  · rw [h1]
    exact hk
  · exact h.2.1 kv h1

lemma StInv_correct (st : PState) (c : Char)
    (hc : c ∈ (['A', 'B', 'C', 'D'] : List Char)) (h : StInv st) :
    StInv { st with correct := ⟨[c]⟩ } := by
  refine ⟨h.1, h.2.1, Or.inr ?_⟩
  show (⟨[c]⟩ : String) ∈ (["A", "B", "C", "D"] : List String)
  fin_cases hc <;> decide

lemma scanStep_inv (lines : List String) (i : Nat) (st : PState) (raw : String)
    (h : StInv st) : StInv (scanStep lines i st raw).1 := by
  rw [scanStep]
  by_cases h1 : hasSub "QUESTION:" (pyUpper (pyStrip raw)) = true
  · simp only [h1, if_pos]
    by_cases h2 : (pyStrip raw).data.contains ':' = true
    · simp only [h2, if_pos]
      by_cases h3 : pyStrip (afterColon (pyStrip raw)) = ""
      · simp only [h3, if_pos]
        cases lines.get? (i + 1) with
        | none => exact h
        | some nxt => exact ⟨h.1, h.2.1, h.2.2⟩
      · rw [if_neg h3]
        exact ⟨h.1, h.2.1, h.2.2⟩
    · simp only [Bool.not_eq_true] at h2
      simp only [h2, Bool.false_eq_true, if_false]
      exact h
  · simp only [Bool.not_eq_true] at h1
    simp only [h1, Bool.false_eq_true, if_false]
    cases hk : optKey (pyStrip raw) with
    | some k =>
      simp only []
      exact StInv_option st k.toUpper _ (by
        have := optKey_mem _ _ hk
        fin_cases this <;> decide) h
    | none =>
      simp only []
      by_cases h2 : hasSub "CORRECT:" (pyUpper (pyStrip raw)) = true
      · simp only [h2, if_pos]
        cases hc : correctLetter (pyStrip raw) with
        | some c => exact StInv_correct st c (findABCD_mem _ _ hc) h
        | none => exact h
      · simp only [Bool.not_eq_true] at h2
        simp only [h2, Bool.false_eq_true, if_false]
        by_cases h3 : hasSub "EXPLANATION:" (pyUpper (pyStrip raw)) = true
        · simp only [h3, if_pos]
          exact ⟨h.1, h.2.1, h.2.2⟩
        · simp only [Bool.not_eq_true] at h3
          simp only [h3, Bool.false_eq_true, if_false]
          exact h

lemma scan_inv (lines : List String) :
    ∀ fuel i st, StInv st → StInv (scan lines fuel i st) := by
  intro fuel
  induction fuel with
  | zero => intro i st h; exact h
  | succ fuel ih =>
    intro i st h
    rw [scan]
    cases hget : lines.get? i with
    | none => exact h
    | some raw => exact ih _ _ (scanStep_inv lines i st raw h)

lemma initPState_inv : StInv initPState := by
  refine ⟨by simp [initPState], by simp [initPState], Or.inl rfl⟩

lemma parseState_inv (r : String) : StInv (parseState r) := by
  exact scan_inv _ _ _ _ initPState_inv

lemma parse_some_fields (r : String) (qq : QuizQuestion)
    (h : parse_quiz_question r = some qq) :
    qq.question = (parseState r).question ∧
    qq.options = (parseState r).options ∧
    qq.correct = (parseState r).correct ∧
    (parseState r).question ≠ "" ∧
    ¬ (parseState r).options.length < 4 ∧
    ((["A", "B", "C", "D"] : List String).contains (parseState r).correct = true) := by
  rw [parse_quiz_question] at h
  by_cases h1 : (parseState r).question = ""
  · rw [if_pos h1] at h; cases h
  · rw [if_neg h1] at h
    by_cases h2 : (parseState r).options.length < 4
    · rw [if_pos h2] at h; cases h
    · rw [if_neg h2] at h
      by_cases h3 : (["A", "B", "C", "D"] : List String).contains (parseState r).correct = true
      · rw [h3] at h
        simp only [Bool.not_true, Bool.false_eq_true, if_false] at h
        cases h
        exact ⟨rfl, rfl, rfl, h1, h2, h3⟩
      · simp only [Bool.not_eq_true] at h3
        rw [h3] at h
        simp only [Bool.not_false, if_true] at h
        cases h

lemma parse_some_options_perm (r : String) (qq : QuizQuestion)
    (h : parse_quiz_question r = some qq) :
    (qq.options.map Prod.fst).Perm (['A', 'B', 'C', 'D'] : List Char) := by
  obtain ⟨-, hopt, -, -, hlen, -⟩ := parse_some_fields r qq h
  have hinv := parseState_inv r
  have hsub : (parseState r).options.map Prod.fst ⊆ ['A', 'B', 'C', 'D'] := by
    intro x hx
    rcases List.mem_map.1 hx with ⟨kv, hkv, hfst⟩
    exact hfst ▸ hinv.2.1 kv hkv
  have hsp := hinv.1.subperm hsub
  have hge : 4 ≤ ((parseState r).options.map Prod.fst).length := by
    rw [List.length_map]
    omega
  rw [hopt]
  exact hsp.perm_of_length_le hge

/-- C2: the validation gate requires a non-empty question, exactly 4
distinct option letters and a correct answer among A-D, all at once; a
text missing any component yields a ParseFailure (none), never a
partially populated record. -/
theorem parse_validation_gate (r : String) :
    (((parseState r).question = "" ∨ (parseState r).options.length < 4 ∨
      (["A", "B", "C", "D"] : List String).contains (parseState r).correct = false) →
      parse_quiz_question r = none) ∧
    (∀ qq, parse_quiz_question r = some qq →
      qq.question ≠ "" ∧ (qq.options.map Prod.fst).Perm (['A', 'B', 'C', 'D'] : List Char) ∧
      qq.correct ∈ (["A", "B", "C", "D"] : List String)) := by
  constructor
  · intro h
    rw [parse_quiz_question]
    rcases h with h | h | h
    · rw [if_pos h]
    · by_cases h1 : (parseState r).question = ""
      · rw [if_pos h1]
      · rw [if_neg h1, if_pos h]
    · by_cases h1 : (parseState r).question = ""
      · rw [if_pos h1]
      · rw [if_neg h1]
        by_cases h2 : (parseState r).options.length < 4
        · rw [if_pos h2]
        · rw [if_neg h2, h]
          simp
  · intro qq h
    obtain ⟨hq, -, hc, hq4, -, hcont⟩ := parse_some_fields r qq h
    refine ⟨hq ▸ hq4, parse_some_options_perm r qq h, ?_⟩
    rw [hc]
    exact List.elem_iff.1 hcont

/-- C2 witness: a template missing its CORRECT line is rejected, and a
complete template passes the gate with exactly the four letters. -/
theorem parse_validation_gate_witness :
    parse_quiz_question "QUESTION: Who?\nA) Alpha\nB) Beta\nC) Gamma\nD) Delta\nEXPLANATION: Because." = none ∧
    (goodQ.question ≠ "" ∧
      (goodQ.options.map Prod.fst).Perm (['A', 'B', 'C', 'D'] : List Char) ∧
      goodQ.correct ∈ (["A", "B", "C", "D"] : List String)) := by
  constructor
  · exact (parse_validation_gate _).1 (by right; right; decide)
  · exact (parse_validation_gate goodResp).2 goodQ (by decide)

/-- C10: parse is total over arbitrary input: it always returns either a
ParseFailure (none) or a fully validated record, and any returned record
has option keys drawn only from A-D, a non-empty question, exactly 4
options and a correct answer among A-D. -/
theorem parse_total_safety (r : String) :
    (parse_quiz_question r = none ∨ ∃ qq, parse_quiz_question r = some qq) ∧
    (∀ qq, parse_quiz_question r = some qq →
      (∀ kv ∈ qq.options, kv.1 ∈ (['A', 'B', 'C', 'D'] : List Char)) ∧
      qq.question ≠ "" ∧ qq.options.length = 4 ∧
      qq.correct ∈ (["A", "B", "C", "D"] : List String)) := by
  constructor
  · cases h : parse_quiz_question r with
    | none => exact Or.inl rfl
    | some qq => exact Or.inr ⟨qq, rfl⟩
  · intro qq h
    obtain ⟨hq, hopt, hc, hq4, hlen, hcont⟩ := parse_some_fields r qq h
    have hperm := parse_some_options_perm r qq h
    have hinv := parseState_inv r
    refine ⟨?_, hq ▸ hq4, ?_, hc ▸ List.elem_iff.1 hcont⟩
    · intro kv hkv
      exact hinv.2.1 kv (hopt ▸ hkv)
    · have := hperm.length_eq
      rw [List.length_map] at this
      simpa using this

/-- C10 witness: totality and the key-domain property at concrete inputs,
one garbage and one well-formed. -/
theorem parse_total_safety_witness :
    (parse_quiz_question "garbage in" = none ∨
      ∃ qq, parse_quiz_question "garbage in" = some qq) ∧
    (∀ kv ∈ goodQ.options, kv.1 ∈ (['A', 'B', 'C', 'D'] : List Char)) ∧
    goodQ.options.length = 4 := by
  refine ⟨(parse_total_safety _).1, ?_, ?_⟩
  · exact ((parse_total_safety goodResp).2 goodQ (by decide)).1
  · exact ((parse_total_safety goodResp).2 goodQ (by decide)).2.2.1

lemma scan_succ (lines : List String) (fuel i : Nat) (st : PState) (raw : String)
    (h : lines.get? i = some raw) :
    scan lines (fuel + 1) i st =
      scan lines fuel (scanStep lines i st raw).2 (scanStep lines i st raw).1 := by
  rw [scan, h]

lemma scan_oob (lines : List String) (fuel i : Nat) (st : PState)
    (h : lines.length ≤ i) : scan lines fuel i st = st := by
  cases fuel with
  | zero => rfl
  | succ fuel => rw [scan, List.get?_eq_none.2 h]

lemma scanStep_question (lines : List String) (i : Nat) (st : PState) (raw : String)
    (hq : hasSub "QUESTION:" (pyUpper (pyStrip raw)) = true)
    (hcolon : (pyStrip raw).data.contains ':' = true)
    (hne : ¬ pyStrip (afterColon (pyStrip raw)) = "") :
    scanStep lines i st raw =
      ({ st with question := pyStrip (afterColon (pyStrip raw)) }, i + 1) := by
  rw [scanStep]
  simp only [hq, hcolon, hne, if_true, if_false, Bool.true_eq_false]

lemma scanStep_option (lines : List String) (i : Nat) (st : PState) (raw : String)
    (k : Char)
    (hq : hasSub "QUESTION:" (pyUpper (pyStrip raw)) = false)
    (hk : optKey (pyStrip raw) = some k) :
    scanStep lines i st raw =
      ({ st with options := dinsert k.toUpper (optValue (pyStrip raw)) st.options },
        i + 1) := by
  rw [scanStep]
  simp only [hq, hk, Bool.false_eq_true, if_false]

lemma scanStep_correct (lines : List String) (i : Nat) (st : PState) (raw : String)
    (c : Char)
    (hq : hasSub "QUESTION:" (pyUpper (pyStrip raw)) = false)
    (hopt : optKey (pyStrip raw) = none)
    (hcor : hasSub "CORRECT:" (pyUpper (pyStrip raw)) = true)
    (hc : correctLetter (pyStrip raw) = some c) :
    scanStep lines i st raw = ({ st with correct := ⟨[c]⟩ }, i + 1) := by
  rw [scanStep]
  simp only [hq, hopt, hcor, hc, Bool.false_eq_true, if_false, if_true]

lemma scanStep_expl (lines : List String) (i : Nat) (st : PState) (raw : String)
    (hq : hasSub "QUESTION:" (pyUpper (pyStrip raw)) = false)
    (hopt : optKey (pyStrip raw) = none)
    (hcor : hasSub "CORRECT:" (pyUpper (pyStrip raw)) = false)
    (hexp : hasSub "EXPLANATION:" (pyUpper (pyStrip raw)) = true) :
    scanStep lines i st raw =
      ({ st with explanation :=
          (absorbExpl lines lines.length (i + 1)
            (explInit (pyStrip raw) st.explanation)).1 },
        (absorbExpl lines lines.length (i + 1)
          (explInit (pyStrip raw) st.explanation)).2) := by
  rw [scanStep]
  simp only [hq, hopt, hcor, hexp, Bool.false_eq_true, if_false, if_true]

lemma drop_cons_of_get? {α : Type} (l : List α) (j : Nat) (x : α)
    (h : l.get? j = some x) : l.drop j = x :: l.drop (j + 1) := by
  obtain ⟨hj, hx⟩ := List.get?_eq_some.1 h
  rw [List.get_eq_getElem] at hx
  rw [List.drop_eq_getElem_cons hj, hx]

/-- Characterization of the explanation-absorption loop: it absorbs
exactly the longest non-marker run after index j, appending each stripped
line separated by a single space, and returns the index just past that
run. -/
lemma absorbExpl_spec (lines : List String) :
    ∀ (fuel j : Nat) (e : String), lines.length - j ≤ fuel →
      absorbExpl lines fuel j e =
        (((lines.drop j).takeWhile (fun l => !stopLine (pyStrip l))).foldl
            (fun a l => a ++ " " ++ pyStrip l) e,
          j + ((lines.drop j).takeWhile (fun l => !stopLine (pyStrip l))).length) := by
  intro fuel
  induction fuel with
  | zero =>
    intro j e hfuel
    have hj : lines.length ≤ j := by omega
    rw [List.drop_eq_nil_of_le hj]
    simp [absorbExpl]
  | succ fuel ih =>
    intro j e hfuel
    cases hget : lines.get? j with
    | none =>
      have hj : lines.length ≤ j := List.get?_eq_none.1 hget
      rw [List.drop_eq_nil_of_le hj, absorbExpl, hget]
      simp
    | some raw =>
      have hdrop := drop_cons_of_get? lines j raw hget
      have hlt : j < lines.length := by
        obtain ⟨hj, -⟩ := List.get?_eq_some.1 hget
        exact hj
      rw [absorbExpl, hget, hdrop]
      by_cases hstop : stopLine (pyStrip raw) = true
      · simp only [hstop, if_pos, List.takeWhile_cons, Bool.not_true,
          Bool.false_eq_true, if_false]
        simp
      · simp only [Bool.not_eq_true] at hstop
        simp only [hstop, Bool.false_eq_true, if_false, List.takeWhile_cons,
          Bool.not_false, if_true]
        rw [ih (j + 1) (e ++ " " ++ pyStrip raw) (by omega)]
        simp only [List.foldl_cons, List.length_cons, Prod.mk.injEq]
        refine ⟨by trivial, by omega⟩

/-- The ABCD search predicate fails on whitespace, even after
uppercasing. -/
lemma abcd_pred_space (c : Char) (h : isPySpace c = true) :
    ((fun x => x == 'A' || x == 'B' || x == 'C' || x == 'D') ∘ Char.toUpper) c = false := by
  simp only [isPySpace, Bool.or_eq_true, beq_iff_eq] at h
  rcases h with ((((h | h) | h) | h) | h) | h <;> subst h <;> decide

lemma find?_dropWhile_eq {α : Type} (p q : α → Bool)
    (hpq : ∀ c, p c = true → q c = false) :
    ∀ l : List α, (l.dropWhile p).find? q = l.find? q := by
  intro l
  induction l with
  | nil => rfl
  | cons c t ih =>
    by_cases hc : p c = true
    · rw [List.dropWhile_cons, if_pos hc, ih, List.find?_cons, hpq c hc]
    · simp only [Bool.not_eq_true] at hc
      rw [List.dropWhile_cons, hc]
      simp

lemma find?_pyStripL_eq (q : Char → Bool)
    (hq : ∀ c, isPySpace c = true → q c = false) (l : List Char) :
    (pyStripL l).find? q = l.find? q := by
  rw [pyStripL]
  have step1 : (l.dropWhile isPySpace).find? q = l.find? q :=
    find?_dropWhile_eq isPySpace q hq l
  rw [← step1]
  set m := l.dropWhile isPySpace with hm
  have hdecomp : m = ((m.reverse.dropWhile isPySpace).reverse) ++
      ((m.reverse.takeWhile isPySpace).reverse) := by
    conv_lhs => rw [← List.reverse_reverse m]
    rw [← List.reverse_append, List.takeWhile_append_dropWhile]
  conv_rhs => rw [hdecomp]
  rw [List.find?_append]
  have hnone : ((m.reverse.takeWhile isPySpace).reverse).find? q = none := by
    rw [List.find?_eq_none]
    intro x hx
    rw [List.mem_reverse] at hx
    have := List.mem_takeWhile_imp hx
    simp [hq x this]
  rw [hnone, Option.or_none]

/-- Stripping before uppercasing does not change which A-D letter is
found first: whitespace never satisfies the search predicate. -/
lemma findABCD_strip (s : String) :
    findABCD (pyUpper (pyStrip s)).data = findABCD (pyUpper s).data := by
  show ((pyStripL s.data).map Char.toUpper).find? _ = (s.data.map Char.toUpper).find? _
  rw [List.find?_map, List.find?_map]
  rw [find?_pyStripL_eq _ abcd_pred_space]

/-- C7: a line containing the marker CORRECT: (detected case-insensitively
on the uppercased line) sets the correct answer to the first character
among A-D found in the uppercased remainder of the line after the first
colon, and the scan moves on to the next line. -/
theorem correct_marker_extraction (lines : List String) (fuel i : Nat)
    (st : PState) (raw : String) (c : Char)
    (hget : lines.get? i = some raw)
    (hq : hasSub "QUESTION:" (pyUpper (pyStrip raw)) = false)
    (hopt : optKey (pyStrip raw) = none)
    (hcor : hasSub "CORRECT:" (pyUpper (pyStrip raw)) = true)
    (hc : correctLetter (pyStrip raw) = some c) :
    scan lines (fuel + 1) i st = scan lines fuel (i + 1) { st with correct := ⟨[c]⟩ } ∧
    (pyUpper (afterColon (pyStrip raw))).data.find?
      (fun x => x == 'A' || x == 'B' || x == 'C' || x == 'D') = some c ∧
    c ∈ (['A', 'B', 'C', 'D'] : List Char) := by
  refine ⟨?_, ?_, findABCD_mem _ c (by rw [correctLetter] at hc; exact hc)⟩
  · rw [scan_succ lines fuel i st raw hget,
      scanStep_correct lines i st raw c hq hopt hcor hc]
  · have h2 := hc
    rw [correctLetter, findABCD_strip] at h2
    exact h2

/-- C7 witness: the concrete line "CORRECT: b." yields correct = B (the
lowercase remainder is uppercased before the first A-D letter is taken). -/
theorem correct_marker_extraction_witness :
    scan ["CORRECT: b."] 1 0 initPState =
      scan ["CORRECT: b."] 0 1 { initPState with correct := "B" } ∧
    (pyUpper (afterColon (pyStrip "CORRECT: b."))).data.find?
      (fun x => x == 'A' || x == 'B' || x == 'C' || x == 'D') = some 'B' := by
  have h := correct_marker_extraction ["CORRECT: b."] 0 0 initPState
    "CORRECT: b." 'B' (by decide) (by decide) (by decide)
    (by decide) (by decide)
  exact ⟨h.1, h.2.1⟩

/-- C3: a line containing EXPLANATION: (none of the earlier branches
firing) takes the stripped remainder after the first colon as the
explanation when non-empty, then absorbs every following line up to but
excluding the first line containing one of the stop markers QUESTION:,
CORRECT:, A), B), C), D) (checked on the uppercased line), and the scan
resumes exactly at that first marker line, so absorbed lines are never
re-processed as other fields. -/
theorem explanation_absorption (lines : List String) (fuel i : Nat)
    (st : PState) (raw : String)
    (hget : lines.get? i = some raw)
    (hq : hasSub "QUESTION:" (pyUpper (pyStrip raw)) = false)
    (hopt : optKey (pyStrip raw) = none)
    (hcor : hasSub "CORRECT:" (pyUpper (pyStrip raw)) = false)
    (hexp : hasSub "EXPLANATION:" (pyUpper (pyStrip raw)) = true) :
    scan lines (fuel + 1) i st =
      scan lines fuel
        (i + 1 + ((lines.drop (i + 1)).takeWhile (fun l => !stopLine (pyStrip l))).length)
        { st with explanation :=
            (((lines.drop (i + 1)).takeWhile (fun l => !stopLine (pyStrip l))).foldl
              (fun a l => a ++ " " ++ pyStrip l)
              (explInit (pyStrip raw) st.explanation)) } := by
  rw [scan_succ lines fuel i st raw hget,
    scanStep_expl lines i st raw hq hopt hcor hexp,
    absorbExpl_spec lines lines.length (i + 1)
      (explInit (pyStrip raw) st.explanation) (Nat.sub_le _ _)]

/-- C3 witness: the explanation line absorbs the following continuation
line and stops at the CORRECT: marker line, which the scan then processes
normally. -/
theorem explanation_absorption_witness :
    scan ["EXPLANATION: x", "more stuff", "CORRECT: A"] 3 0 initPState =
      scan ["EXPLANATION: x", "more stuff", "CORRECT: A"] 2 2
        { initPState with explanation := "x more stuff" } := by
  have h := explanation_absorption ["EXPLANATION: x", "more stuff", "CORRECT: A"]
    2 0 initPState "EXPLANATION: x" (by decide) (by decide) (by decide)
    (by decide) (by decide)
  exact h.trans (by decide)

lemma cleanStr_parts (s : String) (h : cleanStr s = true) :
    s.data ≠ [] ∧ isPySpace (s.data.headD 'x') = false ∧
    isPySpace (s.data.getLastD 'x') = false ∧ '\n' ∉ s.data := by
  rw [cleanStr] at h
  simp only [Bool.and_eq_true, Bool.not_eq_true', List.all_eq_true,
    List.isEmpty_eq_false, beq_eq_false_iff_ne] at h
  exact ⟨h.1.1.1, h.1.2, h.2, fun hmem => h.1.1.2 '\n' hmem rfl⟩

lemma pyStripL_eq_self (l : List Char)
    (hh : isPySpace (l.headD 'x') = false)
    (hl : isPySpace (l.getLastD 'x') = false) : pyStripL l = l := by
  cases l with
  | nil => rfl
  | cons a t =>
    have ha : isPySpace a = false := hh
    rw [pyStripL, List.dropWhile_cons, ha]
    simp only [Bool.false_eq_true, if_false]
    cases hrev : (a :: t).reverse with
    | nil => exact absurd (congrArg List.length hrev) (by simp)
    | cons y t2 =>
      have hgl : (a :: t).getLast? = some y := by
        rw [← List.head?_reverse, hrev]
        rfl
      have hy : isPySpace y = false := by
        have hld : (a :: t).getLastD 'x' = y := by
          rw [List.getLastD_eq_getLast?, hgl]
          rfl
        rw [← hld]
        exact hl
      rw [List.dropWhile_cons, hy]
      simp only [Bool.false_eq_true, if_false]
      rw [← hrev, List.reverse_reverse]

lemma cleanStr_strip (s : String) (h : cleanStr s = true) : pyStrip s = s := by
  obtain ⟨-, hh, hl, -⟩ := cleanStr_parts s h
  cases s with
  | mk data =>
    show (⟨pyStripL data⟩ : String) = ⟨data⟩
    rw [pyStripL_eq_self data hh hl]

lemma getLastD_append_right (l1 l2 : List Char) (h : l2 ≠ []) (d : Char) :
    (l1 ++ l2).getLastD d = l2.getLastD d := by
  rw [List.getLastD_eq_getLast?, List.getLastD_eq_getLast?, List.getLast?_append]
  cases hg : l2.getLast? with
  | none => exact absurd (List.getLast?_eq_none_iff.1 hg) h
  | some y => rfl

/-- A literal prefix starting with a non-space character, followed by a
clean field, strips to itself. -/
lemma pyStrip_lit_append (p : List Char) (s : String)
    (hp1 : p ≠ []) (hph : isPySpace (p.headD 'x') = false)
    (hs : cleanStr s = true) :
    pyStrip ⟨p ++ s.data⟩ = ⟨p ++ s.data⟩ := by
  obtain ⟨hne, -, hl, -⟩ := cleanStr_parts s hs
  show (⟨pyStripL (p ++ s.data)⟩ : String) = ⟨p ++ s.data⟩
  rw [pyStripL_eq_self (p ++ s.data) ?_ ?_]
  · cases p with
    | nil => exact absurd rfl hp1
    | cons a p2 => exact hph
  · rw [getLastD_append_right p s.data hne]
    exact hl

lemma pyStripL_cons_space (c : Char) (hc : isPySpace c = true) (l : List Char) :
    pyStripL (c :: l) = pyStripL l := by
  rw [pyStripL, pyStripL, List.dropWhile_cons, hc]
  simp

lemma pyStrip_space_cons (s : String) (h : cleanStr s = true) :
    pyStrip ⟨' ' :: s.data⟩ = s := by
  show (⟨pyStripL (' ' :: s.data)⟩ : String) = s
  rw [pyStripL_cons_space ' ' (by decide) s.data]
  exact cleanStr_strip s h

lemma isSubstrL_of_isPrefixOf (n h : List Char) (hp : n.isPrefixOf h = true) :
    isSubstrL n h = true := by
  cases h with
  | nil =>
    cases n with
    | nil => rfl
    | cons a t => simp [List.isPrefixOf] at hp
  | cons c rest =>
    rw [isSubstrL, hp]
    rfl

/-- Skipping a block that does not contain the needle's first character
does not affect substring containment. -/
lemma isSubstrL_append_skip (nh : Char) (nt : List Char) :
    ∀ (p l : List Char), nh ∉ p →
      isSubstrL (nh :: nt) (p ++ l) = isSubstrL (nh :: nt) l := by
  intro p
  induction p with
  | nil => intro l _; rfl
  | cons c p2 ih =>
    intro l hp
    have hne : (nh == c) = false := by
      simp only [beq_eq_false_iff_ne]
      intro he
      exact hp (he ▸ List.mem_cons_self c p2)
    rw [List.cons_append, isSubstrL]
    have hpre : (nh :: nt).isPrefixOf (c :: (p2 ++ l)) = false := by
      simp [List.isPrefixOf, hne]
    rw [hpre]
    simp only [Bool.false_or]
    exact ih l (fun hm => hp (List.mem_cons_of_mem c hm))

lemma afterColon_lit (pre post : List Char) (s : String)
    (hpre : ∀ c ∈ pre, (!(c == ':')) = true) :
    afterColon ⟨pre ++ ':' :: (post ++ s.data)⟩ = ⟨post ++ s.data⟩ := by
  rw [afterColon]
  show (⟨((pre ++ ':' :: (post ++ s.data)).dropWhile (fun c => !(c == ':'))).drop 1⟩ : String) = _
  rw [List.dropWhile_append_of_pos hpre, List.dropWhile_cons]
  simp

lemma optKey_none_of_head (s : String)
    (h : (s.data.headD 'x' == 'A' || s.data.headD 'x' == 'B' ||
          s.data.headD 'x' == 'C' || s.data.headD 'x' == 'D') = false) :
    optKey s = none := by
  rw [optKey]
  rcases hd : s.data with _ | ⟨c1, _ | ⟨c2, r⟩⟩
  · rfl
  · rfl
  · rw [hd] at h
    simp only [List.headD_cons] at h
    simp [h]

lemma scanStep_at_qline (lines : List String) (i : Nat) (st : PState) (q : String)
    (hq : cleanStr q = true) :
    scanStep lines i st ("QUESTION: " ++ q) = ({ st with question := q }, i + 1) := by
  have hstrip : pyStrip ("QUESTION: " ++ q) = "QUESTION: " ++ q := by
    exact pyStrip_lit_append "QUESTION: ".data q (by decide) (by decide) hq
  have hafter : pyStrip (afterColon ("QUESTION: " ++ q)) = q := by
    have h1 : ("QUESTION: " ++ q) = ⟨"QUESTION".data ++ ':' :: ([' '] ++ q.data)⟩ := rfl
    rw [h1, afterColon_lit "QUESTION".data [' '] q (by decide)]
    exact pyStrip_space_cons q hq
  have hupper : hasSub "QUESTION:" (pyUpper (pyStrip ("QUESTION: " ++ q))) = true := by
    rw [hstrip, hasSub]
    show isSubstrL "QUESTION:".data (("QUESTION: ".data ++ q.data).map Char.toUpper) = true
    rw [List.map_append]
    apply isSubstrL_of_isPrefixOf
    rw [show ("QUESTION: ".data.map Char.toUpper) = "QUESTION:".data ++ [' '] from by decide,
      List.append_assoc]
    exact isPrefixOf_append_left _ _
  have hcolon : (pyStrip ("QUESTION: " ++ q)).data.contains ':' = true := by
    rw [hstrip]
    show (("QUESTION: ".data ++ q.data).elem ':') = true
    exact List.elem_iff.2 (List.mem_append_left _ (by decide))
  have hne : ¬ pyStrip (afterColon (pyStrip ("QUESTION: " ++ q))) = "" := by
    rw [hstrip, hafter]
    obtain ⟨hne0, -, -, -⟩ := cleanStr_parts q hq
    intro he
    exact hne0 (congrArg String.data he)
  rw [scanStep_question lines i st ("QUESTION: " ++ q) hupper hcolon hne,
    hstrip, hafter]

lemma scanStep_at_optline (lines : List String) (i : Nat) (st : PState)
    (kv : Char × String) (h : cleanOpt kv = true) :
    scanStep lines i st (mkOptLine kv) =
      ({ st with options := dinsert kv.1 kv.2 st.options }, i + 1) := by
  obtain ⟨k, v⟩ := kv
  rw [cleanOpt] at h
  simp only [Bool.and_eq_true, Bool.not_eq_true'] at h
  obtain ⟨⟨⟨hk, hv⟩, hpar⟩, hqm⟩ := h
  have hkmem : k ∈ (['A', 'B', 'C', 'D'] : List Char) := by
    simp only [Bool.or_eq_true, beq_iff_eq] at hk
    rcases hk with ((h1 | h1) | h1) | h1 <;> simp [h1]
  obtain ⟨hvne, hvh, hvl, -⟩ := cleanStr_parts v hv
  have hstrip : pyStrip (mkOptLine (k, v)) = mkOptLine (k, v) := by
    show pyStrip ⟨[k, ')', ' '] ++ v.data⟩ = ⟨[k, ')', ' '] ++ v.data⟩
    refine pyStrip_lit_append [k, ')', ' '] v (by simp) ?_ hv
    fin_cases hkmem <;> decide
  have hupper : hasSub "QUESTION:" (pyUpper (pyStrip (mkOptLine (k, v)))) = false := by
    rw [hstrip, hasSub]
    show isSubstrL ('Q' :: "UESTION:".data)
      (([k, ')', ' '] ++ v.data).map Char.toUpper) = false
    rw [List.map_append]
    have hmap : ([k, ')', ' '].map Char.toUpper) = [k.toUpper, ')', ' '] := by
      simp only [List.map_cons, List.map_nil]
      rw [show Char.toUpper ')' = ')' from by decide,
        show Char.toUpper ' ' = ' ' from by decide]
    rw [hmap, isSubstrL_append_skip 'Q' "UESTION:".data [k.toUpper, ')', ' ']
      (v.data.map Char.toUpper) ?_]
    · exact hqm
    · fin_cases hkmem <;> decide
  have hoptk : optKey (pyStrip (mkOptLine (k, v))) = some k := by
    rw [hstrip]
    show optKey ⟨k :: ')' :: ' ' :: v.data⟩ = some k
    rw [optKey]
    have hcond : ((k == 'A' || k == 'B' || k == 'C' || k == 'D') && (')' == ')')) = true := by
      simp [hk]
    simp only [hcond, if_pos]
  have hval : optValue (pyStrip (mkOptLine (k, v))) = v := by
    rw [hstrip]
    simp only [optValue]
    have hlen : (mkOptLine (k, v)).data.length > 2 := by
      show ([k, ')', ' '] ++ v.data).length > 2
      simp
    rw [if_pos hlen]
    have hdrop : ((mkOptLine (k, v)).data.drop 2) = ' ' :: v.data := rfl
    rw [hdrop]
    have hsp : pyStrip ⟨' ' :: v.data⟩ = v := pyStrip_space_cons v hv
    rw [hsp]
    rcases hvd : v.data with _ | ⟨c, rest⟩
    · exact absurd hvd hvne
    · have hcp : ¬ c = ')' := by
        rw [hvd] at hpar
        simp only [List.headD_cons, beq_eq_false_iff_ne] at hpar
        exact hpar
      simp only [hvd, if_neg hcp]
  have hku : k.toUpper = k := by fin_cases hkmem <;> decide
  rw [scanStep_option lines i st (mkOptLine (k, v)) k hupper hoptk, hval, hku]

set_option maxHeartbeats 1600000 in
lemma scanStep_at_corrline (lines : List String) (i : Nat) (st : PState) (corr : Char)
    (h : corr ∈ (['A', 'B', 'C', 'D'] : List Char)) :
    scanStep lines i st ("CORRECT: " ++ ⟨[corr]⟩) =
      ({ st with correct := ⟨[corr]⟩ }, i + 1) := by
  have h4 : corr = 'A' ∨ corr = 'B' ∨ corr = 'C' ∨ corr = 'D' := by simpa using h
  rcases h4 with h1 | h1 | h1 | h1 <;> subst h1
  · exact scanStep_correct lines i st ("CORRECT: " ++ ⟨['A']⟩) 'A'
      (by decide) (by decide) (by decide) (by decide)
  · exact scanStep_correct lines i st ("CORRECT: " ++ ⟨['B']⟩) 'B'
      (by decide) (by decide) (by decide) (by decide)
  · exact scanStep_correct lines i st ("CORRECT: " ++ ⟨['C']⟩) 'C'
      (by decide) (by decide) (by decide) (by decide)
  · exact scanStep_correct lines i st ("CORRECT: " ++ ⟨['D']⟩) 'D'
      (by decide) (by decide) (by decide) (by decide)

lemma scanStep_at_explline (lines : List String) (i : Nat) (st : PState) (e : String)
    (he : cleanStr e = true)
    (heq : hasSub "QUESTION:" (pyUpper e) = false)
    (hec : hasSub "CORRECT:" (pyUpper e) = false) :
    scanStep lines i st ("EXPLANATION: " ++ e) =
      ({ st with explanation := (absorbExpl lines lines.length (i + 1) e).1 },
        (absorbExpl lines lines.length (i + 1) e).2) := by
  have hstrip : pyStrip ("EXPLANATION: " ++ e) = "EXPLANATION: " ++ e := by
    exact pyStrip_lit_append "EXPLANATION: ".data e (by decide) (by decide) he
  have hafter : pyStrip (afterColon ("EXPLANATION: " ++ e)) = e := by
    have h1 : ("EXPLANATION: " ++ e) = ⟨"EXPLANATION".data ++ ':' :: ([' '] ++ e.data)⟩ := rfl
    rw [h1, afterColon_lit "EXPLANATION".data [' '] e (by decide)]
    exact pyStrip_space_cons e he
  have hq1 : hasSub "QUESTION:" (pyUpper (pyStrip ("EXPLANATION: " ++ e))) = false := by
    rw [hstrip, hasSub]
    show isSubstrL ('Q' :: "UESTION:".data)
      (("EXPLANATION: ".data ++ e.data).map Char.toUpper) = false
    rw [List.map_append,
      show ("EXPLANATION: ".data.map Char.toUpper) = "EXPLANATION: ".data from by decide,
      isSubstrL_append_skip 'Q' "UESTION:".data "EXPLANATION: ".data
        (e.data.map Char.toUpper) (by decide)]
    exact heq
  have hopt : optKey (pyStrip ("EXPLANATION: " ++ e)) = none := by
    rw [hstrip]
    refine optKey_none_of_head _ ?_
    rfl
  have hc1 : hasSub "CORRECT:" (pyUpper (pyStrip ("EXPLANATION: " ++ e))) = false := by
    rw [hstrip, hasSub]
    show isSubstrL ('C' :: "ORRECT:".data)
      (("EXPLANATION: ".data ++ e.data).map Char.toUpper) = false
    rw [List.map_append,
      show ("EXPLANATION: ".data.map Char.toUpper) = "EXPLANATION: ".data from by decide,
      isSubstrL_append_skip 'C' "ORRECT:".data "EXPLANATION: ".data
        (e.data.map Char.toUpper) (by decide)]
    exact hec
  have he1 : hasSub "EXPLANATION:" (pyUpper (pyStrip ("EXPLANATION: " ++ e))) = true := by
    rw [hstrip, hasSub]
    show isSubstrL "EXPLANATION:".data
      (("EXPLANATION: ".data ++ e.data).map Char.toUpper) = true
    rw [List.map_append,
      show ("EXPLANATION: ".data.map Char.toUpper) = "EXPLANATION: ".data from by decide]
    apply isSubstrL_of_isPrefixOf
    rw [show ("EXPLANATION: ".data) = "EXPLANATION:".data ++ [' '] from by decide,
      List.append_assoc]
    exact isPrefixOf_append_left _ _
  rw [scanStep_expl lines i st ("EXPLANATION: " ++ e) hq1 hopt hc1 he1]
  have hinit : explInit (pyStrip ("EXPLANATION: " ++ e)) st.explanation = e := by
    rw [hstrip, explInit]
    simp only [hafter]
    obtain ⟨hne0, -, -, -⟩ := cleanStr_parts e he
    rw [if_neg (fun hc => hne0 (congrArg String.data hc))]
  rw [hinit]

lemma get?_eq_head?_drop {α : Type} : ∀ (l : List α) (i : Nat), l.get? i = (l.drop i).head? := by
  intro l
  induction l with
  | nil => intro i; cases i <;> rfl
  | cons a t ih =>
    intro i
    cases i with
    | zero => rfl
    | succ i2 => rw [List.get?_cons_succ, List.drop_succ_cons, ih i2]

lemma get?_of_drop {α : Type} (l : List α) (i : Nat) (x : α) (r : List α)
    (h : l.drop i = x :: r) : l.get? i = some x := by
  rw [get?_eq_head?_drop, h]
  rfl

lemma splitNL_no_nl (l : List Char) (h : '\n' ∉ l) : splitNL l = [l] := by
  induction l with
  | nil => rfl
  | cons c t ih =>
    rw [splitNL,
      if_neg (by intro hc; subst hc; exact h (List.mem_cons_self _ _)),
      ih (fun hm => h (List.mem_cons_of_mem c hm))]

lemma splitNL_append (l r : List Char) (h : '\n' ∉ l) :
    splitNL (l ++ '\n' :: r) = l :: splitNL r := by
  induction l with
  | nil =>
    rw [List.nil_append, splitNL, if_pos rfl]
  | cons c t ih =>
    rw [List.cons_append, splitNL,
      if_neg (by intro hc; subst hc; exact h (List.mem_cons_self _ _)),
      ih (fun hm => h (List.mem_cons_of_mem c hm))]

/-- Joining clean lines with newlines and re-splitting through pyLines
recovers exactly the lines. -/
lemma pyLines_joinNL : ∀ ls : List String, ls ≠ [] →
    (∀ l ∈ ls, pyStrip l = l ∧ l ≠ "" ∧ '\n' ∉ l.data) →
    pyLines (joinNL ls) = ls := by
  intro ls
  induction ls with
  | nil => intro h _; exact absurd rfl h
  | cons a tl ih =>
    intro _hne hok
    obtain ⟨ha1, ha2, ha3⟩ := hok a (List.mem_cons_self a tl)
    have hfa : (!(a == "")) = true := by
      rw [beq_eq_false_iff_ne.2 ha2]
      rfl
    cases tl with
    | nil =>
      rw [joinNL, pyLines, splitNL_no_nl a.data ha3]
      simp only [List.map_cons, List.map_nil, List.filter_cons, List.filter_nil]
      rw [show pyStrip ⟨a.data⟩ = a from ha1, hfa]
      rw [if_pos rfl]
    | cons b tl2 =>
      rw [joinNL, pyLines]
      have hdata : (a ++ "\n" ++ joinNL (b :: tl2)).data =
          a.data ++ '\n' :: (joinNL (b :: tl2)).data := by
        rw [string_data_append, string_data_append, List.append_assoc]
        rfl
      rw [hdata, splitNL_append _ _ ha3]
      simp only [List.map_cons, List.filter_cons]
      rw [show pyStrip ⟨a.data⟩ = a from ha1, hfa, if_pos rfl]
      have htl := ih (by simp) (fun l hl => hok l (List.mem_cons_of_mem a hl))
      rw [pyLines] at htl
      rw [htl]

lemma dinsert_fresh (k : Char) (v : String) :
    ∀ l : List (Char × String), k ∉ l.map Prod.fst →
      dinsert k v l = l ++ [(k, v)] := by
  intro l
  induction l with
  | nil => intro _; rfl
  | cons hd tl ih =>
    obtain ⟨k0, v0⟩ := hd
    intro h
    simp only [List.map_cons, List.mem_cons, not_or] at h
    rw [dinsert, if_neg (fun he => h.1 he.symm), ih h.2, List.cons_append]

lemma dinsertAll_disjoint :
    ∀ (opts base : List (Char × String)),
      (opts.map Prod.fst).Nodup →
      (∀ k ∈ opts.map Prod.fst, k ∉ base.map Prod.fst) →
      dinsertAll base opts = base ++ opts := by
  intro opts
  induction opts with
  | nil => intro base _ _; simp [dinsertAll]
  | cons kv tl ih =>
    intro base hnd hdisj
    obtain ⟨k, v⟩ := kv
    simp only [List.map_cons, List.nodup_cons] at hnd
    have hkb : k ∉ base.map Prod.fst := hdisj k (by simp)
    have hstep : dinsertAll base ((k, v) :: tl) =
        dinsertAll (dinsert k v base) tl := rfl
    rw [hstep, dinsert_fresh k v base hkb, ih (base ++ [(k, v)]) hnd.2 ?_]
    · rw [List.append_assoc]
      rfl
    · intro k2 hk2
      rw [List.map_append]
      simp only [List.mem_append, List.map_cons, List.map_nil, not_or]
      refine ⟨hdisj k2 (by simp [hk2]), ?_⟩
      simp only [List.mem_singleton]
      intro he
      exact hnd.1 (he ▸ hk2)

lemma dinsertAll_nil (opts : List (Char × String))
    (h : (opts.map Prod.fst).Nodup) : dinsertAll [] opts = opts := by
  rw [dinsertAll_disjoint opts [] h (fun k _ => by simp)]
  rfl

/-- The options phase: a run of clean option lines inserts the
corresponding entries in order and advances the index past the run. -/
lemma scan_opts_phase (lines : List String) :
    ∀ (opts : List (Char × String)) (rest : List String) (i fuel : Nat) (st : PState),
      (∀ kv ∈ opts, cleanOpt kv = true) →
      lines.drop i = opts.map mkOptLine ++ rest →
      scan lines (opts.length + fuel) i st =
        scan lines fuel (i + opts.length)
          { st with options := dinsertAll st.options opts } := by
  intro opts
  induction opts with
  | nil =>
    intro rest i fuel st _ _
    simp only [List.length_nil, Nat.zero_add, Nat.add_zero, dinsertAll, List.foldl_nil]
  | cons kv tl ih =>
    intro rest i fuel st hclean hdrop
    have hget : lines.get? i = some (mkOptLine kv) := by
      apply get?_of_drop lines i (mkOptLine kv) (tl.map mkOptLine ++ rest)
      rw [hdrop, List.map_cons, List.cons_append]
    have hlen : (kv :: tl).length + fuel = (tl.length + fuel) + 1 := by
      simp only [List.length_cons]
      omega
    rw [hlen, scan_succ lines (tl.length + fuel) i st (mkOptLine kv) hget,
      scanStep_at_optline lines i st kv (hclean kv (List.mem_cons_self kv tl))]
    show scan lines (tl.length + fuel) (i + 1)
      { st with options := dinsert kv.1 kv.2 st.options } = _
    have hdrop2 : lines.drop (i + 1) = tl.map mkOptLine ++ rest := by
      rw [← List.tail_drop, hdrop, List.map_cons, List.cons_append]
      rfl
    rw [ih rest (i + 1) fuel _ (fun kv2 h2 => hclean kv2 (List.mem_cons_of_mem kv h2)) hdrop2]
    have hidx : (i + 1) + tl.length = i + (kv :: tl).length := by
      simp only [List.length_cons]
      omega
    rw [hidx]
    rfl

lemma qline_ok (q : String) (hq : cleanStr q = true) :
    pyStrip ("QUESTION: " ++ q) = "QUESTION: " ++ q ∧
    ("QUESTION: " ++ q) ≠ "" ∧ '\n' ∉ ("QUESTION: " ++ q).data := by
  obtain ⟨hne, -, -, hnl⟩ := cleanStr_parts q hq
  refine ⟨pyStrip_lit_append "QUESTION: ".data q (by decide) (by decide) hq, ?_, ?_⟩
  · intro hc
    have h2 := congrArg String.data hc
    rw [string_data_append] at h2
    exact absurd h2 (by simp)
  · show '\n' ∉ "QUESTION: ".data ++ q.data
    rw [List.mem_append]
    rintro (hm | hm)
    · exact absurd hm (by decide)
    · exact hnl hm

lemma explline_ok (e : String) (he : cleanStr e = true) :
    pyStrip ("EXPLANATION: " ++ e) = "EXPLANATION: " ++ e ∧
    ("EXPLANATION: " ++ e) ≠ "" ∧ '\n' ∉ ("EXPLANATION: " ++ e).data := by
  obtain ⟨hne, -, -, hnl⟩ := cleanStr_parts e he
  refine ⟨pyStrip_lit_append "EXPLANATION: ".data e (by decide) (by decide) he, ?_, ?_⟩
  · intro hc
    have h2 := congrArg String.data hc
    rw [string_data_append] at h2
    exact absurd h2 (by simp)
  · show '\n' ∉ "EXPLANATION: ".data ++ e.data
    rw [List.mem_append]
    rintro (hm | hm)
    · exact absurd hm (by decide)
    · exact hnl hm

lemma corrline_ok (corr : Char) (h : corr ∈ (['A', 'B', 'C', 'D'] : List Char)) :
    pyStrip ("CORRECT: " ++ ⟨[corr]⟩) = "CORRECT: " ++ ⟨[corr]⟩ ∧
    ("CORRECT: " ++ ⟨[corr]⟩) ≠ "" ∧ '\n' ∉ ("CORRECT: " ++ ⟨[corr]⟩).data := by
  have h4 : corr = 'A' ∨ corr = 'B' ∨ corr = 'C' ∨ corr = 'D' := by simpa using h
  have hcs : cleanStr (⟨[corr]⟩ : String) = true := by
    rcases h4 with h1 | h1 | h1 | h1 <;> subst h1 <;> decide
  obtain ⟨-, -, -, hnl⟩ := cleanStr_parts _ hcs
  refine ⟨pyStrip_lit_append "CORRECT: ".data ⟨[corr]⟩ (by decide) (by decide) hcs, ?_, ?_⟩
  · intro hc
    have h2 := congrArg String.data hc
    rw [string_data_append] at h2
    exact absurd h2 (by simp)
  · show '\n' ∉ "CORRECT: ".data ++ [corr]
    rw [List.mem_append]
    rintro (hm | hm)
    · exact absurd hm (by decide)
    · rcases h4 with h1 | h1 | h1 | h1 <;> subst h1 <;> exact absurd hm (by decide)

lemma optline_ok (kv : Char × String) (h : cleanOpt kv = true) :
    pyStrip (mkOptLine kv) = mkOptLine kv ∧ mkOptLine kv ≠ "" ∧
    '\n' ∉ (mkOptLine kv).data := by
  obtain ⟨k, v⟩ := kv
  rw [cleanOpt] at h
  simp only [Bool.and_eq_true, Bool.not_eq_true'] at h
  obtain ⟨⟨⟨hk, hv⟩, -⟩, -⟩ := h
  have hkmem : k ∈ (['A', 'B', 'C', 'D'] : List Char) := by
    simp only [Bool.or_eq_true, beq_iff_eq] at hk
    rcases hk with ((h1 | h1) | h1) | h1 <;> simp [h1]
  obtain ⟨hvne, -, -, hvnl⟩ := cleanStr_parts v hv
  refine ⟨?_, ?_, ?_⟩
  · show pyStrip ⟨[k, ')', ' '] ++ v.data⟩ = ⟨[k, ')', ' '] ++ v.data⟩
    refine pyStrip_lit_append [k, ')', ' '] v (by simp) ?_ hv
    fin_cases hkmem <;> decide
  · intro hc
    have h2 := congrArg String.data hc
    exact absurd h2 (by simp [mkOptLine])
  · show '\n' ∉ [k, ')', ' '] ++ v.data
    rw [List.mem_append]
    rintro (hm | hm)
    · fin_cases hkmem <;> revert hm <;> decide
    · exact hvnl hm

lemma foldl_strip_eq : ∀ (conts : List String), (∀ l ∈ conts, pyStrip l = l) →
    ∀ e : String, conts.foldl (fun a l => a ++ " " ++ pyStrip l) e =
      conts.foldl (fun a l => a ++ " " ++ l) e := by
  intro conts
  induction conts with
  | nil => intro _ e; rfl
  | cons c t ih =>
    intro h e
    rw [List.foldl_cons, List.foldl_cons, h c (List.mem_cons_self c t)]
    exact ih (fun l hl => h l (List.mem_cons_of_mem c hl)) (e ++ " " ++ c)

/-- Running the parser's scan over a well-formed five-field template
yields exactly the template's fields: question text, each option entry
inserted in order of appearance, the CORRECT letter, and the explanation
joined from the remainder and all continuation lines. -/
lemma parseState_template (q : String) (opts : List (Char × String)) (corr : Char)
    (e : String) (conts : List String)
    (hq : cleanStr q = true)
    (hopts : ∀ kv ∈ opts, cleanOpt kv = true)
    (hcorr : corr ∈ (['A', 'B', 'C', 'D'] : List Char))
    (he : cleanStr e = true)
    (heq : hasSub "QUESTION:" (pyUpper e) = false)
    (hec : hasSub "CORRECT:" (pyUpper e) = false)
    (hconts : ∀ l ∈ conts, cleanStr l = true ∧ stopLine l = false) :
    parseState (mkTemplate q opts corr e conts) =
      { question := q, options := dinsertAll [] opts, correct := ⟨[corr]⟩,
        explanation := explJoin e conts } := by
  have hlines : pyLines (mkTemplate q opts corr e conts) =
      templateLines q opts corr e conts := by
    rw [mkTemplate]
    apply pyLines_joinNL
    · simp [templateLines]
    · intro l hl
      rw [templateLines] at hl
      rcases List.mem_cons.1 hl with rfl | hl2
      · exact qline_ok q hq
      rcases List.mem_append.1 hl2 with hoptm | hl3
      · obtain ⟨kv, hkv, rfl⟩ := List.mem_map.1 hoptm
        exact optline_ok kv (hopts kv hkv)
      rcases List.mem_cons.1 hl3 with rfl | hl4
      · exact corrline_ok corr hcorr
      rcases List.mem_cons.1 hl4 with rfl | hl5
      · exact explline_ok e he
      · obtain ⟨hc1, -⟩ := hconts l hl5
        obtain ⟨hne, -, -, hnl⟩ := cleanStr_parts l hc1
        exact ⟨cleanStr_strip l hc1, fun hc => hne (congrArg String.data hc), hnl⟩
  rw [parseState, hlines]
  set L := templateLines q opts corr e conts with hL
  have hlen : L.length = (opts.length + (conts.length + 2)) + 1 := by
    rw [hL, templateLines]
    simp only [List.length_cons, List.length_append, List.length_map]
    omega
  rw [hlen]
  have hget0 : L.get? 0 = some ("QUESTION: " ++ q) := by rw [hL]; rfl
  rw [scan_succ L (opts.length + (conts.length + 2)) 0 initPState _ hget0,
    scanStep_at_qline L 0 initPState q hq]
  show scan L (opts.length + (conts.length + 2)) 1
    { initPState with question := q } = _
  have hdrop1 : L.drop 1 = opts.map mkOptLine ++
      (("CORRECT: " ++ ⟨[corr]⟩) :: ("EXPLANATION: " ++ e) :: conts) := by
    rw [hL]
    rfl
  rw [scan_opts_phase L opts _ 1 (conts.length + 2) _ hopts hdrop1]
  have hi1 : 1 + opts.length = opts.length + 1 := by omega
  rw [hi1]
  have hget1 : L.get? (opts.length + 1) = some ("CORRECT: " ++ ⟨[corr]⟩) := by
    rw [hL, templateLines]
    show (opts.map mkOptLine ++
        ("CORRECT: " ++ ⟨[corr]⟩) :: ("EXPLANATION: " ++ e) :: conts).get? opts.length =
      some ("CORRECT: " ++ ⟨[corr]⟩)
    rw [List.get?_append_right (by simp)]
    simp
  have hfuel2 : conts.length + 2 = (conts.length + 1) + 1 := by omega
  rw [hfuel2, scan_succ L (conts.length + 1) (opts.length + 1) _ _ hget1,
    scanStep_at_corrline L (opts.length + 1) _ corr hcorr]
  show scan L (conts.length + 1) (opts.length + 2)
    (⟨q, dinsertAll [] opts, ⟨[corr]⟩, ""⟩ : PState) = _
  have hget2 : L.get? (opts.length + 2) = some ("EXPLANATION: " ++ e) := by
    rw [hL, templateLines]
    show (opts.map mkOptLine ++
        ("CORRECT: " ++ ⟨[corr]⟩) :: ("EXPLANATION: " ++ e) :: conts).get? (opts.length + 1) =
      some ("EXPLANATION: " ++ e)
    rw [List.get?_append_right (by simp)]
    simp
  rw [scan_succ L conts.length (opts.length + 2) _ _ hget2,
    scanStep_at_explline L (opts.length + 2) _ e he heq hec]
  show scan L conts.length
      (absorbExpl L L.length (opts.length + 3) e).2
      { question := q, options := dinsertAll [] opts, correct := ⟨[corr]⟩,
        explanation := (absorbExpl L L.length (opts.length + 3) e).1 } = _
  have hdrop3 : L.drop (opts.length + 3) = conts := by
    rw [hL, templateLines]
    show (opts.map mkOptLine ++
        ("CORRECT: " ++ ⟨[corr]⟩) :: ("EXPLANATION: " ++ e) :: conts).drop (opts.length + 2) =
      conts
    rw [show opts.length + 2 = (opts.map mkOptLine).length + 2 from by simp,
      ← List.drop_drop, List.drop_left]
    rfl
  have htake : conts.takeWhile (fun l => !stopLine (pyStrip l)) = conts := by
    rw [List.takeWhile_eq_self_iff]
    intro x hx
    obtain ⟨hc1, hc2⟩ := hconts x hx
    simp only [cleanStr_strip x hc1, hc2]
    rfl
  have habs := absorbExpl_spec L L.length (opts.length + 3) e (Nat.sub_le _ _)
  rw [hdrop3, htake] at habs
  rw [habs]
  show scan L conts.length ((opts.length + 3) + conts.length)
      { question := q, options := dinsertAll [] opts, correct := ⟨[corr]⟩,
        explanation := conts.foldl (fun a l => a ++ " " ++ pyStrip l) e } = _
  rw [scan_oob L conts.length (opts.length + 3 + conts.length)
    { question := q, options := dinsertAll [] opts, correct := ⟨[corr]⟩,
      explanation := conts.foldl (fun a l => a ++ " " ++ pyStrip l) e }
    (by rw [hlen]; omega)]
  rw [foldl_strip_eq conts (fun l hl => cleanStr_strip l (hconts l hl).1) e]
  rfl

/-- Parsing a well-formed template passes validation and returns exactly
the template's fields, with the options in order of appearance. -/
lemma parse_template_some (q a b c0 d : String) (opts : List (Char × String))
    (corr : Char) (e : String) (conts : List String)
    (hperm : opts.Perm [('A', a), ('B', b), ('C', c0), ('D', d)])
    (hq : cleanStr q = true)
    (hopts : ∀ kv ∈ opts, cleanOpt kv = true)
    (hcorr : corr ∈ (['A', 'B', 'C', 'D'] : List Char))
    (he : cleanStr e = true)
    (heq : hasSub "QUESTION:" (pyUpper e) = false)
    (hec : hasSub "CORRECT:" (pyUpper e) = false)
    (hconts : ∀ l ∈ conts, cleanStr l = true ∧ stopLine l = false) :
    parse_quiz_question (mkTemplate q opts corr e conts) =
      some ⟨q, opts, ⟨[corr]⟩, explJoin e conts⟩ := by
  have hkeys : (opts.map Prod.fst).Perm (['A', 'B', 'C', 'D'] : List Char) := by
    have h2 := hperm.map Prod.fst
    simpa using h2
  have hnodup : (opts.map Prod.fst).Nodup := hkeys.nodup_iff.2 (by decide)
  have hins : dinsertAll [] opts = opts := dinsertAll_nil opts hnodup
  have hst := parseState_template q opts corr e conts hq hopts hcorr he heq hec hconts
  obtain ⟨hqne, -, -, -⟩ := cleanStr_parts q hq
  have hlen4 : opts.length = 4 := by simpa using hperm.length_eq
  have h4 : corr = 'A' ∨ corr = 'B' ∨ corr = 'C' ∨ corr = 'D' := by simpa using hcorr
  have hcont : ((["A", "B", "C", "D"] : List String).contains (⟨[corr]⟩ : String)) = true := by
    rcases h4 with h1 | h1 | h1 | h1 <;> subst h1 <;> decide
  simp only [parse_quiz_question, hst, hins]
  rw [if_neg (fun hc => hqne (congrArg String.data hc)), if_neg (by omega), hcont]
  simp

lemma dictGet_mem_some (k : Char) (v : String) :
    ∀ l : List (Char × String), (l.map Prod.fst).Nodup → (k, v) ∈ l →
      dictGet k l = some v := by
  intro l
  induction l with
  | nil => intro _ h; cases h
  | cons hd tl ih =>
    obtain ⟨k0, v0⟩ := hd
    intro hnd hmem
    simp only [List.map_cons, List.nodup_cons] at hnd
    rcases List.mem_cons.1 hmem with heq2 | hmem2
    · have h2 : k = k0 ∧ v = v0 := by simpa using heq2
      obtain ⟨rfl, rfl⟩ := h2
      rw [dictGet, if_pos rfl]
    · have hne : k0 ≠ k := by
        intro he2
        apply hnd.1
        subst he2
        exact List.mem_map.2 ⟨(k0, v), hmem2, rfl⟩
      rw [dictGet, if_neg hne]
      exact ih hnd.2 hmem2

lemma dictGet_not_mem (k : Char) :
    ∀ l : List (Char × String), k ∉ l.map Prod.fst → dictGet k l = none := by
  intro l
  induction l with
  | nil => intro _; rfl
  | cons hd tl ih =>
    obtain ⟨k0, v0⟩ := hd
    intro h
    simp only [List.map_cons, List.mem_cons, not_or] at h
    rw [dictGet, if_neg (fun he => h.1 he.symm)]
    exact ih h.2

/-- C1: for every well-formed five-field template, parse returns a record
whose question is the QUESTION text, whose options mapping holds exactly
the four letters A-D with their texts, whose correct field is the CORRECT
letter, and whose explanation is the EXPLANATION remainder joined with
all continuation lines (single-space separated, as the code concatenates
them). -/
theorem parse_wellformed_template
    (q a b c0 d e : String) (corr : Char) (conts : List String)
    (hq : cleanStr q = true)
    (ha : cleanOpt ('A', a) = true) (hb : cleanOpt ('B', b) = true)
    (hc : cleanOpt ('C', c0) = true) (hd : cleanOpt ('D', d) = true)
    (hcorr : corr ∈ (['A', 'B', 'C', 'D'] : List Char))
    (he : cleanStr e = true)
    (heq : hasSub "QUESTION:" (pyUpper e) = false)
    (hec : hasSub "CORRECT:" (pyUpper e) = false)
    (hconts : ∀ l ∈ conts, cleanStr l = true ∧ stopLine l = false) :
    parse_quiz_question
        (mkTemplate q [('A', a), ('B', b), ('C', c0), ('D', d)] corr e conts) =
      some ⟨q, [('A', a), ('B', b), ('C', c0), ('D', d)], ⟨[corr]⟩, explJoin e conts⟩ ∧
    dictGet 'A' [('A', a), ('B', b), ('C', c0), ('D', d)] = some a ∧
    dictGet 'B' [('A', a), ('B', b), ('C', c0), ('D', d)] = some b ∧
    dictGet 'C' [('A', a), ('B', b), ('C', c0), ('D', d)] = some c0 ∧
    dictGet 'D' [('A', a), ('B', b), ('C', c0), ('D', d)] = some d ∧
    [('A', a), ('B', b), ('C', c0), ('D', d)].map Prod.fst = ['A', 'B', 'C', 'D'] := by
  refine ⟨parse_template_some q a b c0 d _ corr e conts (List.Perm.refl _) hq ?_
    hcorr he heq hec hconts, ?_, ?_, ?_, ?_, rfl⟩
  · intro kv hkv
    have h4 : kv = ('A', a) ∨ kv = ('B', b) ∨ kv = ('C', c0) ∨ kv = ('D', d) := by
      simpa using hkv
    rcases h4 with h1 | h1 | h1 | h1 <;> subst h1
    · exact ha
    · exact hb
    · exact hc
    · exact hd
  · simp [dictGet]
  · simp [dictGet]
  · simp [dictGet]
  · simp [dictGet]

/-- C1 witness: a concrete well-formed template parses to exactly its
fields. -/
theorem parse_wellformed_template_witness :
    parse_quiz_question (mkTemplate "Who?"
        [('A', "Alpha"), ('B', "Beta"), ('C', "Gamma"), ('D', "Delta")]
        'A' "Because." ["Indeed."]) =
      some ⟨"Who?", [('A', "Alpha"), ('B', "Beta"), ('C', "Gamma"), ('D', "Delta")],
        "A", "Because. Indeed."⟩ := by
  have h := (parse_wellformed_template "Who?" "Alpha" "Beta" "Gamma" "Delta"
    "Because." 'A' ["Indeed."] (by decide) (by decide) (by decide) (by decide)
    (by decide) (by decide) (by decide) (by decide) (by decide) (by decide)).1
  exact h.trans (by decide)

/-- C8: parse is order-insensitive in the option lines: for any
permutation of the four option lines inside a well-formed template the
result is a valid record with the same question, the same correct letter,
and the same options mapping (lookups agree for every key); but it is
order-sensitive for explanation continuation, which stops at the first
marker line: reordering the lines after the EXPLANATION line changes the
parsed explanation. -/
theorem parse_option_order_invariance
    (q a b c0 d e : String) (corr : Char) (conts : List String)
    (opts : List (Char × String))
    (hperm : opts.Perm [('A', a), ('B', b), ('C', c0), ('D', d)])
    (hq : cleanStr q = true)
    (hopts : ∀ kv ∈ opts, cleanOpt kv = true)
    (hcorr : corr ∈ (['A', 'B', 'C', 'D'] : List Char))
    (he : cleanStr e = true)
    (heq : hasSub "QUESTION:" (pyUpper e) = false)
    (hec : hasSub "CORRECT:" (pyUpper e) = false)
    (hconts : ∀ l ∈ conts, cleanStr l = true ∧ stopLine l = false) :
    (parse_quiz_question (mkTemplate q opts corr e conts) =
        some ⟨q, opts, ⟨[corr]⟩, explJoin e conts⟩ ∧
      ∀ k, dictGet k opts = dictGet k [('A', a), ('B', b), ('C', c0), ('D', d)]) ∧
    ((pyLines exOrder1).Perm (pyLines exOrder2) ∧
      parse_quiz_question exOrder1 ≠ parse_quiz_question exOrder2) := by
  have hkeys : (opts.map Prod.fst).Perm (['A', 'B', 'C', 'D'] : List Char) := by
    have h2 := hperm.map Prod.fst
    simpa using h2
  have hnodup : (opts.map Prod.fst).Nodup := hkeys.nodup_iff.2 (by decide)
  have hnodup4 : (([('A', a), ('B', b), ('C', c0), ('D', d)]).map Prod.fst).Nodup := by
    show (['A', 'B', 'C', 'D'] : List Char).Nodup
    decide
  refine ⟨⟨parse_template_some q a b c0 d opts corr e conts hperm hq hopts
    hcorr he heq hec hconts, ?_⟩, by decide, by decide⟩
  intro k
  by_cases hk : k ∈ opts.map Prod.fst
  · obtain ⟨⟨k2, v⟩, hmem, hfst⟩ := List.mem_map.1 hk
    have hk2 : k2 = k := hfst
    subst hk2
    rw [dictGet_mem_some k2 v opts hnodup hmem,
      dictGet_mem_some k2 v _ hnodup4 (hperm.mem_iff.1 hmem)]
  · have hk4 : k ∉ ([('A', a), ('B', b), ('C', c0), ('D', d)]).map Prod.fst :=
      fun hc2 => hk (((hperm.map Prod.fst).mem_iff).2 hc2)
    rw [dictGet_not_mem k opts hk, dictGet_not_mem k _ hk4]

/-- C8 witness: a permuted concrete template parses with the same
mapping; the lookups of the permuted and canonical option lists agree. -/
theorem parse_option_order_invariance_witness :
    parse_quiz_question (mkTemplate "Who?"
        [('B', "Beta"), ('A', "Alpha"), ('D', "Delta"), ('C', "Gamma")]
        'A' "Because." []) =
      some ⟨"Who?", [('B', "Beta"), ('A', "Alpha"), ('D', "Delta"), ('C', "Gamma")],
        "A", "Because."⟩ ∧
    dictGet 'A' [('B', "Beta"), ('A', "Alpha"), ('D', "Delta"), ('C', "Gamma")] =
      dictGet 'A' [('A', "Alpha"), ('B', "Beta"), ('C', "Gamma"), ('D', "Delta")] := by
  have h := parse_option_order_invariance "Who?" "Alpha" "Beta" "Gamma" "Delta"
    "Because." 'A' [] [('B', "Beta"), ('A', "Alpha"), ('D', "Delta"), ('C', "Gamma")]
    (by decide) (by decide) (by decide) (by decide) (by decide) (by decide)
    (by decide) (by decide)
  exact ⟨h.1.1, h.1.2 'A'⟩
